import Mathlib

/-!
Verification of the aws-copier reconciliation and upload logic.

The development shallowly embeds the code of `aws_copier/core/file_listener.py`
and `aws_copier/core/s3_manager.py`.  Python dictionaries that map filenames to
MD5 fingerprints are embedded as association lists (`List (String × String)`)
whose lookup/assignment semantics (`dictGet`, `dictSet`) mirror `dict.get` and
`dict.__setitem__`; dictionaries built by directory scans have pairwise
distinct keys, expressed by `dictKeysNodup`.  Network effects (per-file upload
success, S3 HEAD responses, transport errors) are passed in explicitly, so
every embedded operation is a pure total function of its inputs.
-/

/-- `dict.get k` on an association list: the value of the first pair whose key
is `k`, if any. -/
def dictGet : List (String × String) → String → Option String
  | [], _ => none
  | p :: rest, k => if p.1 = k then some p.2 else dictGet rest k

/-- Python dict assignment `d[k] = v`: replace the value in place when the key
is present, append the pair otherwise. -/
def dictSet (m : List (String × String)) (k : String) (v : String) :
    List (String × String) :=
  if (dictGet m k).isSome then
    m.map (fun p => if p.1 = k then (k, v) else p)
  else m ++ [(k, v)]

/-- The keys of the association list are pairwise distinct (always true of a
list that embeds a Python dict). -/
def dictKeysNodup (m : List (String × String)) : Prop :=
  (m.map Prod.fst).Nodup

instance (m : List (String × String)) : Decidable (dictKeysNodup m) := by
  unfold dictKeysNodup; infer_instance

/-- Python dict equality `d1 == d2`: same keys with the same values,
independent of insertion order. -/
def dictBeq (m1 m2 : List (String × String)) : Bool :=
  m1.all (fun p => dictGet m2 p.1 == some p.2) &&
  m2.all (fun p => dictGet m1 p.1 == some p.2)

theorem dictGet_eq_none_iff (m : List (String × String)) (k : String) :
    dictGet m k = none ↔ ∀ p ∈ m, p.1 ≠ k := by
  induction m with
  | nil => simp [dictGet]
  | cons p rest ih =>
    by_cases h : p.1 = k <;> simp [dictGet, h, ih]

theorem mem_of_dictGet {m : List (String × String)} {k v : String}
    (h : dictGet m k = some v) : (k, v) ∈ m := by
  induction m with
  | nil => simp [dictGet] at h
  | cons p rest ih =>
    by_cases hp : p.1 = k
    · simp [dictGet, hp] at h
      have hpv : (k, v) = p := by
        calc (k, v) = (p.1, p.2) := by rw [hp, h]
          _ = p := rfl
      rw [hpv]
      exact List.mem_cons_self p rest
    · simp [dictGet, hp] at h
      exact List.mem_cons_of_mem _ (ih h)

theorem dictGet_eq_of_mem {m : List (String × String)} {k v : String}
    (hnd : dictKeysNodup m) (h : (k, v) ∈ m) : dictGet m k = some v := by
  induction m with
  | nil => simp at h
  | cons p rest ih =>
    have hnd2 : (p.1 :: rest.map Prod.fst).Nodup := hnd
    rcases List.mem_cons.mp h with heq | hmem
    · simp [dictGet, ← heq]
    · by_cases hp : p.1 = k
      · exfalso
        have : k ∈ rest.map Prod.fst := List.mem_map.mpr ⟨(k, v), hmem, rfl⟩
        exact (List.nodup_cons.mp hnd2).1 (hp ▸ this)
      · simpa [dictGet, hp] using ih (List.nodup_cons.mp hnd2).2 hmem

theorem dictGet_append_of_none {m1 : List (String × String)} {k : String}
    (m2 : List (String × String)) (h : dictGet m1 k = none) :
    dictGet (m1 ++ m2) k = dictGet m2 k := by
  induction m1 with
  | nil => rfl
  | cons p rest ih =>
    by_cases hp : p.1 = k
    · simp [dictGet, hp] at h
    · simp [dictGet, hp] at h ⊢
      exact ih h

theorem dictGet_map_replace {m : List (String × String)} {k : String}
    (v : String) (h : (dictGet m k).isSome) :
    dictGet (m.map (fun p => if p.1 = k then (k, v) else p)) k = some v := by
  induction m with
  | nil => simp [dictGet] at h
  | cons p rest ih =>
    by_cases hp : p.1 = k
    · simp [dictGet, hp]
    · simp [dictGet, hp] at h ⊢
      exact ih h

theorem dictGet_map_replace_ne {m : List (String × String)} {k q : String}
    (v : String) (h : q ≠ k) :
    dictGet (m.map (fun p => if p.1 = k then (k, v) else p)) q = dictGet m q := by
  induction m with
  | nil => rfl
  | cons p rest ih =>
    by_cases hp : p.1 = k
    · have : k ≠ q := fun hkq => h hkq.symm
      simp [dictGet, hp, this, ih]
    · by_cases hq : p.1 = q
      · simp [dictGet, hq, h]
      · simp [dictGet, hp, hq, ih]

theorem dictGet_dictSet_self (m : List (String × String)) (k v : String) :
    dictGet (dictSet m k v) k = some v := by
  unfold dictSet
  by_cases h : (dictGet m k).isSome
  · simp [h, dictGet_map_replace v h]
  · have hn : dictGet m k = none := Option.not_isSome_iff_eq_none.mp h
    simp [h, dictGet_append_of_none _ hn, dictGet]

theorem dictGet_append_of_some {m1 : List (String × String)} {k v : String}
    (m2 : List (String × String)) (h : dictGet m1 k = some v) :
    dictGet (m1 ++ m2) k = some v := by
  induction m1 with
  | nil => simp [dictGet] at h
  | cons p rest ih =>
    by_cases hp : p.1 = k
    · simp [dictGet, hp] at h ⊢
      exact h
    · simp [dictGet, hp] at h ⊢
      exact ih h

theorem dictGet_dictSet_ne (m : List (String × String)) {k q : String}
    (v : String) (h : q ≠ k) : dictGet (dictSet m k v) q = dictGet m q := by
  unfold dictSet
  by_cases hs : (dictGet m k).isSome
  · simp [hs, dictGet_map_replace_ne v h]
  · rw [if_neg hs]
    cases hq : dictGet m q with
    | some w => exact dictGet_append_of_some _ hq
    | none =>
      rw [dictGet_append_of_none _ hq]
      have : k ≠ q := fun hkq => h hkq.symm
      simp [dictGet, this]

/-! ## FileListener reconciliation (`aws_copier/core/file_listener.py`)

`current` plays the role of `current_files` (filename → MD5 from the fresh
scan), `existing` the role of `existing_backup_info` (the loaded manifest).
The outcome of `FileListener._upload_single_file` for each filename —
success, remote-duplicate skip, failure, timeout or exception — is abstracted
by the boolean oracle `ok`. -/

/-- `FileListener._determine_files_to_upload`: the filenames whose current MD5
is new or different from the manifest entry (`existing.get(f) != md5`). -/
def determine_files_to_upload (current existing : List (String × String)) :
    List String :=
  (current.filter (fun p => !(dictGet existing p.1 == some p.2))).map Prod.fst

/-- `FileListener._upload_files`: attempt every candidate, return the subset
whose upload attempt reported success (failures, timeouts and exceptions are
dropped). -/
def upload_files (ok : String → Bool) (files : List String) : List String :=
  files.filter ok

/-- The manifest written by `FileListener._process_current_folder` when at
least one upload succeeded: start from a copy of the previous manifest, record
the current MD5 of every successfully uploaded filename, then carry over every
scanned filename that was not a candidate. -/
def merged_backup_info (existing current : List (String × String))
    (toUp uploaded : List String) : List (String × String) :=
  current.foldl
    (fun acc p => if p.1 ∈ toUp then acc else dictSet acc p.1 p.2)
    (uploaded.foldl
      (fun acc f =>
        match dictGet current f with
        | some m => dictSet acc f m
        | none => acc)
      existing)

/-- `FileListener._process_current_folder`, returning the manifest contents
after the reconciliation (an untouched manifest file keeps its previous
contents `existing`). -/
def process_current_folder (existing current : List (String × String))
    (ok : String → Bool) : List (String × String) :=
  if upload_files ok (determine_files_to_upload current existing) ≠ [] then
    merged_backup_info existing current
      (determine_files_to_upload current existing)
      (upload_files ok (determine_files_to_upload current existing))
  else if determine_files_to_upload current existing ≠ [] then existing
  else if dictBeq current existing then existing else current

theorem mem_determine_iff {current : List (String × String)}
    (existing : List (String × String)) (f : String)
    (h : dictKeysNodup current) :
    f ∈ determine_files_to_upload current existing ↔
      ∃ m, dictGet current f = some m ∧ dictGet existing f ≠ some m := by
  unfold determine_files_to_upload
  constructor
  · intro hf
    rcases List.mem_map.mp hf with ⟨p, hp, hfst⟩
    rcases List.mem_filter.mp hp with ⟨hmem, hpred⟩
    refine ⟨p.2, ?_, ?_⟩
    · rw [← hfst]
      exact dictGet_eq_of_mem h hmem
    · intro hcontra
      rw [hfst] at hpred
      simp [hcontra] at hpred
  · rintro ⟨m, hc, he⟩
    have hmem : (f, m) ∈ current := mem_of_dictGet hc
    refine List.mem_map.mpr ⟨(f, m), List.mem_filter.mpr ⟨hmem, ?_⟩, rfl⟩
    simpa using he

theorem fold_uploaded_unchanged {current : List (String × String)} {f : String}
    (l : List String) (acc : List (String × String)) (hf : f ∉ l) :
    dictGet (l.foldl
      (fun acc g =>
        match dictGet current g with
        | some m => dictSet acc g m
        | none => acc)
      acc) f = dictGet acc f := by
  induction l generalizing acc with
  | nil => rfl
  | cons g rest ih =>
    have hg : f ≠ g := fun hfg => hf (hfg ▸ List.mem_cons_self g rest)
    have hrest : f ∉ rest := fun hmem => hf (List.mem_cons_of_mem g hmem)
    simp only [List.foldl_cons]
    rw [ih _ hrest]
    cases hgc : dictGet current g with
    | some m => simp [hgc, dictGet_dictSet_ne _ _ hg]
    | none => simp [hgc]

theorem fold_uploaded_mem {current : List (String × String)} {f m : String}
    (l : List String) (acc : List (String × String)) (hf : f ∈ l)
    (hc : dictGet current f = some m) :
    dictGet (l.foldl
      (fun acc g =>
        match dictGet current g with
        | some m => dictSet acc g m
        | none => acc)
      acc) f = some m := by
  induction l generalizing acc with
  | nil => simp at hf
  | cons g rest ih =>
    by_cases hrest : f ∈ rest
    · simp only [List.foldl_cons]
      exact ih _ hrest
    · have hg : f = g := by
        rcases List.mem_cons.mp hf with hfg | hmem
        · exact hfg
        · exact absurd hmem hrest
      simp only [List.foldl_cons]
      rw [fold_uploaded_unchanged rest _ hrest, ← hg, hc]
      exact dictGet_dictSet_self _ f m

theorem fold_carry_unchanged {toUp : List String} {f : String}
    (l : List (String × String)) (acc : List (String × String))
    (hall : ∀ p ∈ l, p.1 = f → p.1 ∈ toUp) :
    dictGet (l.foldl
      (fun acc p => if p.1 ∈ toUp then acc else dictSet acc p.1 p.2)
      acc) f = dictGet acc f := by
  induction l generalizing acc with
  | nil => rfl
  | cons p rest ih =>
    simp only [List.foldl_cons]
    rw [ih _ (fun q hq => hall q (List.mem_cons_of_mem p hq))]
    by_cases hp : p.1 ∈ toUp
    · simp [hp]
    · have hne : f ≠ p.1 := by
        intro hfp
        exact hp (hall p (List.mem_cons_self p rest) hfp.symm)
      simp [hp, dictGet_dictSet_ne _ _ hne]

theorem fold_carry_mem {toUp : List String} {f m : String}
    (l : List (String × String)) (acc : List (String × String))
    (hnd : dictKeysNodup l) (hmem : (f, m) ∈ l) (hf : f ∉ toUp) :
    dictGet (l.foldl
      (fun acc p => if p.1 ∈ toUp then acc else dictSet acc p.1 p.2)
      acc) f = some m := by
  induction l generalizing acc with
  | nil => simp at hmem
  | cons p rest ih =>
    have hnd2 : (p.1 :: rest.map Prod.fst).Nodup := hnd
    rcases List.mem_cons.mp hmem with heq | hrest
    · have hp1 : p.1 = f := by rw [← heq]
      have hnokey : ∀ q ∈ rest, q.1 = f → q.1 ∈ toUp := by
        intro q hq hqf
        exfalso
        have : f ∈ rest.map Prod.fst := List.mem_map.mpr ⟨q, hq, hqf⟩
        exact (List.nodup_cons.mp hnd2).1 (hp1 ▸ this)
      simp only [List.foldl_cons]
      rw [fold_carry_unchanged rest _ hnokey]
      rw [hp1, if_neg hf]
      have hpm : p.2 = m := by rw [← heq]
      rw [hpm]
      exact dictGet_dictSet_self _ f m
    · simp only [List.foldl_cons]
      exact ih _ (List.nodup_cons.mp hnd2).2 hrest

/-- C2: a filename is a candidate for upload iff it is in the current scan and
is absent from the previous manifest or carries a different fingerprint there;
filenames present only in the previous manifest are never candidates. -/
theorem c2_diff_rule (current existing : List (String × String)) (f : String)
    (h : dictKeysNodup current) :
    (f ∈ determine_files_to_upload current existing ↔
      ∃ m, dictGet current f = some m ∧ dictGet existing f ≠ some m) ∧
    (dictGet current f = none → f ∉ determine_files_to_upload current existing) := by
  refine ⟨mem_determine_iff existing f h, ?_⟩
  intro hnone hmem
  rcases (mem_determine_iff existing f h).mp hmem with ⟨m, hc, _⟩
  rw [hnone] at hc
  exact Option.noConfusion hc

theorem c2_diff_rule_witness :
    ("b" ∈ determine_files_to_upload [("a", "1"), ("b", "2")] [("a", "1"), ("c", "3")] ↔
      ∃ m, dictGet [("a", "1"), ("b", "2")] "b" = some m ∧
        dictGet [("a", "1"), ("c", "3")] "b" ≠ some m) ∧
    (dictGet [("a", "1"), ("b", "2")] "b" = none →
      "b" ∉ determine_files_to_upload [("a", "1"), ("b", "2")] [("a", "1"), ("c", "3")]) :=
  c2_diff_rule [("a", "1"), ("b", "2")] [("a", "1"), ("c", "3")] "b" (by decide)

/-- C1: if the upload of a candidate `f` fails, the committed manifest carries
over `f`'s previous entry unchanged (its new fingerprint is not recorded), and
`f` is a candidate again at the next reconciliation of the same directory. -/
theorem c1_retry_by_omission (current existing : List (String × String))
    (ok : String → Bool) (f m : String) (h : dictKeysNodup current)
    (hc : dictGet current f = some m) (he : dictGet existing f ≠ some m)
    (hfail : ok f = false) :
    dictGet (process_current_folder existing current ok) f = dictGet existing f ∧
    dictGet (process_current_folder existing current ok) f ≠ some m ∧
    f ∈ determine_files_to_upload current (process_current_folder existing current ok) := by
  have hftoUp : f ∈ determine_files_to_upload current existing :=
    (mem_determine_iff existing f h).mpr ⟨m, hc, he⟩
  have hfnup : f ∉ upload_files ok (determine_files_to_upload current existing) := by
    intro hmem
    have hok := (List.mem_filter.mp hmem).2
    rw [hfail] at hok
    exact Bool.false_ne_true hok
  have hkey : dictGet (process_current_folder existing current ok) f = dictGet existing f := by
    unfold process_current_folder
    by_cases hup : upload_files ok (determine_files_to_upload current existing) ≠ []
    · rw [if_pos hup]
      unfold merged_backup_info
      rw [fold_carry_unchanged current _ (fun p _ hpf => hpf ▸ hftoUp)]
      exact fold_uploaded_unchanged _ _ hfnup
    · rw [if_neg hup, if_pos (List.ne_nil_of_mem hftoUp)]
  refine ⟨hkey, ?_, ?_⟩
  · rw [hkey]; exact he
  · exact (mem_determine_iff _ f h).mpr ⟨m, hc, by rw [hkey]; exact he⟩

theorem c1_retry_by_omission_witness :
    dictGet (process_current_folder [] [("a", "1")] (fun _ => false)) "a" =
      dictGet [] "a" ∧
    dictGet (process_current_folder [] [("a", "1")] (fun _ => false)) "a" ≠ some "1" ∧
    "a" ∈ determine_files_to_upload [("a", "1")]
      (process_current_folder [] [("a", "1")] (fun _ => false)) :=
  c1_retry_by_omission [("a", "1")] [] (fun _ => false) "a" "1"
    (by decide) (by decide) (by decide) rfl

/-- C3 counterexample: the claim quantifies over every completed
reconciliation, but after a reconciliation in which the single candidate's
upload failed, the next reconciliation of the unchanged directory has a
non-empty candidate set (retry-by-omission), so it does not upload zero
files. -/
theorem c3_counterexample :
    determine_files_to_upload [("a.txt", "h1")]
      (process_current_folder [] [("a.txt", "h1")] (fun _ => false)) = ["a.txt"] ∧
    ["a.txt"] ≠ ([] : List String) := by
  constructor
  · rfl
  · decide

/-- C3 amended: if every candidate upload of the first reconciliation
succeeds (in particular when there are no candidates), then a second
reconciliation of the directory with no filesystem change in between has an
empty candidate-for-upload set, hence uploads zero files. -/
theorem c3_reconciliation_idempotent (current existing : List (String × String))
    (ok : String → Bool) (h : dictKeysNodup current)
    (hall : ∀ f ∈ determine_files_to_upload current existing, ok f = true) :
    determine_files_to_upload current (process_current_folder existing current ok) = [] := by
  have hup : upload_files ok (determine_files_to_upload current existing) =
      determine_files_to_upload current existing :=
    List.filter_eq_self.mpr hall
  have hpt : ∀ p ∈ current,
      dictGet (process_current_folder existing current ok) p.1 = some p.2 := by
    intro p hp
    by_cases htu : determine_files_to_upload current existing = []
    · have hupnil : upload_files ok (determine_files_to_upload current existing) = [] := by
        rw [hup, htu]
      unfold process_current_folder
      rw [hupnil, if_neg (by simp), if_neg (by simp [htu])]
      by_cases hbeq : dictBeq current existing = true
      · rw [if_pos hbeq]
        have hfil : current.filter (fun p => !(dictGet existing p.1 == some p.2)) = [] := by
          unfold determine_files_to_upload at htu
          exact List.map_eq_nil_iff.mp htu
        have hpred := List.filter_eq_nil_iff.mp hfil p hp
        simpa using hpred
      · rw [if_neg hbeq]
        exact dictGet_eq_of_mem h hp
    · unfold process_current_folder
      rw [if_pos (by rw [hup]; exact htu)]
      unfold merged_backup_info
      by_cases hmem : p.1 ∈ determine_files_to_upload current existing
      · rw [fold_carry_unchanged current _ (fun q _ hq1 => hq1 ▸ hmem)]
        rw [hup]
        exact fold_uploaded_mem _ _ hmem (dictGet_eq_of_mem h hp)
      · exact fold_carry_mem current _ h hp hmem
  unfold determine_files_to_upload
  have hfil : current.filter
      (fun p => !(dictGet (process_current_folder existing current ok) p.1 == some p.2)) = [] := by
    apply List.filter_eq_nil_iff.mpr
    intro p hp
    simp [hpt p hp]
  rw [hfil]
  rfl

theorem c3_reconciliation_idempotent_witness :
    determine_files_to_upload [("a", "1")]
      (process_current_folder [] [("a", "1")] (fun _ => true)) = [] :=
  c3_reconciliation_idempotent [("a", "1")] [] (fun _ => true) (by decide) (by decide)

/-- C10: with an empty candidate set and a current mapping that differs (as a
dict) from the previous manifest, the committed manifest is exactly the
current scan's mapping; with at least one successful upload, every key absent
from the current scan (in particular a locally deleted file) keeps its
previous manifest entry unchanged. -/
theorem c10_manifest_asymmetry (current existing : List (String × String))
    (ok : String → Bool) (h : dictKeysNodup current) :
    (determine_files_to_upload current existing = [] →
      dictBeq current existing = false →
      process_current_folder existing current ok = current) ∧
    (upload_files ok (determine_files_to_upload current existing) ≠ [] →
      ∀ f, dictGet current f = none →
        dictGet (process_current_folder existing current ok) f = dictGet existing f) := by
  constructor
  · intro htu hbeq
    unfold process_current_folder
    rw [htu]
    simp [upload_files, hbeq]
  · intro hupload f hnone
    unfold process_current_folder
    rw [if_pos hupload]
    unfold merged_backup_info
    have hkeys : ∀ p ∈ current, p.1 = f →
        p.1 ∈ determine_files_to_upload current existing := by
      intro p hp hpf
      exact absurd hpf ((dictGet_eq_none_iff current f).mp hnone p hp)
    rw [fold_carry_unchanged current _ hkeys]
    have hfnup : f ∉ upload_files ok (determine_files_to_upload current existing) := by
      intro hmem
      have hft : f ∈ determine_files_to_upload current existing :=
        (List.mem_filter.mp hmem).1
      rcases (mem_determine_iff existing f h).mp hft with ⟨m, hc, _⟩
      rw [hnone] at hc
      exact Option.noConfusion hc
    exact fold_uploaded_unchanged _ _ hfnup

theorem c10_manifest_asymmetry_witness :
    process_current_folder [("a", "1"), ("c", "3")] [("a", "1")] (fun _ => true) =
      [("a", "1")] ∧
    dictGet (process_current_folder [("a", "1"), ("c", "3")] [("a", "1"), ("b", "2")]
      (fun _ => true)) "c" = dictGet [("a", "1"), ("c", "3")] "c" :=
  ⟨(c10_manifest_asymmetry [("a", "1")] [("a", "1"), ("c", "3")] (fun _ => true)
      (by decide)).1 (by decide) (by decide),
    (c10_manifest_asymmetry [("a", "1"), ("b", "2")] [("a", "1"), ("c", "3")]
      (fun _ => true) (by decide)).2 (by decide) "c" (by decide)⟩

/-! ## Ignore rules and the directory scan
(`FileListener._should_ignore_file`, `FileListener._scan_current_files`) -/

/-- Python `s.startswith(t)` on code-point sequences. -/
def py_starts_with (s t : String) : Bool :=
  t.data.isPrefixOf s.data

/-- `FileListener.ignore_patterns` (a Python set; embedded as a list, the
checks below only use membership). -/
def ignore_patterns : List String :=
  [".DS_Store", "Thumbs.db", "desktop.ini",
   "hiberfil.sys", "pagefile.sys", "swapfile.sys",
   ".tmp", ".temp", ".swp", ".swo",
   ".git", ".gitignore", ".svn",
   ".vscode", ".idea", "*.pyc", "__pycache__",
   ".Trashes", ".Spotlight-V100", ".fseventsd",
   "node_modules", ".pytest_cache", ".coverage",
   "*.bak", "*.backup", "*~",
   ".milo_backup.info"]

/-- `FileListener._should_ignore_file`: exact match against the pattern set,
or the filename starts with one of the dot-prefixed patterns. -/
def should_ignore_file (filename : String) : Bool :=
  decide (filename ∈ ignore_patterns) ||
  ignore_patterns.any
    (fun pat => py_starts_with pat "." && py_starts_with filename pat)

/-- One entry of `folder_path.iterdir()` together with the outcome of the MD5
computation attempted on it (`none` embeds a hashing failure). -/
structure DirEntry where
  name : String
  isDir : Bool
  md5Result : Option String

/-- `FileListener._scan_current_files`: directories and ignored names are
skipped, every remaining entry with a successful MD5 lands in the current
fingerprint mapping. -/
def scan_current_files (entries : List DirEntry) : List (String × String) :=
  (entries.filter (fun e => !e.isDir && !should_ignore_file e.name)).filterMap
    (fun e => e.md5Result.map (fun h => (e.name, h)))

/-- C6 counterexample: `.bashrc` begins with a dot yet matches no ignore
pattern, so the scan hashes it and records it in the current fingerprint set —
the claim that every dotfile is excluded is false. -/
theorem c6_counterexample :
    should_ignore_file ".bashrc" = false ∧
    scan_current_files [⟨".bashrc", false, some "abc"⟩] = [(".bashrc", "abc")] := by
  constructor
  · decide
  · rfl

/-- C6 amended: every filename equal to one of the listed artifact names
(including the manifest file `.milo_backup.info`), and every filename starting
with one of the dot-prefixed listed names, is ignored and excluded entirely
from the current fingerprint set; dotfiles matching no listed pattern are not
excluded. -/
theorem c6_ignore_rules (entries : List DirEntry) (f : String)
    (hig : f ∈ ignore_patterns ∨
      ∃ pat ∈ ignore_patterns,
        py_starts_with pat "." = true ∧ py_starts_with f pat = true) :
    should_ignore_file f = true ∧
    dictGet (scan_current_files entries) f = none := by
  have hsi : should_ignore_file f = true := by
    unfold should_ignore_file
    rw [Bool.or_eq_true]
    rcases hig with hmem | ⟨pat, hpat, hdot, hpre⟩
    · left
      exact decide_eq_true hmem
    · right
      rw [List.any_eq_true]
      exact ⟨pat, hpat, by simp [hdot, hpre]⟩
  refine ⟨hsi, ?_⟩
  rw [dictGet_eq_none_iff]
  intro p hp
  unfold scan_current_files at hp
  rcases List.mem_filterMap.mp hp with ⟨e, he, hmap⟩
  rcases List.mem_filter.mp he with ⟨_, hkeep⟩
  have hnotig : should_ignore_file e.name = false := by
    simp only [Bool.and_eq_true, Bool.not_eq_true'] at hkeep
    exact hkeep.2
  have hp1 : p.1 = e.name := by
    cases hm : e.md5Result with
    | none => rw [hm] at hmap; simp at hmap
    | some hval =>
      rw [hm] at hmap
      simp only [Option.map_some'] at hmap
      have h2 : (e.name, hval) = p := Option.some.inj hmap
      rw [← h2]
  intro hpf
  rw [hp1] at hpf
  rw [hpf] at hnotig
  rw [hsi] at hnotig
  exact Bool.noConfusion hnotig

theorem c6_ignore_rules_witness :
    should_ignore_file ".DS_Store" = true ∧
    dictGet (scan_current_files
      [⟨"a.txt", false, some "h1"⟩, ⟨".DS_Store", false, some "h2"⟩]) ".DS_Store" = none :=
  c6_ignore_rules [⟨"a.txt", false, some "h1"⟩, ⟨".DS_Store", false, some "h2"⟩]
    ".DS_Store" (Or.inl (by decide))

/-! ## S3Manager (`aws_copier/core/s3_manager.py`)

A `head_object` call on the bucket is embedded as a `HeadResult`: either the
stored object's relevant data (its `md5-checksum` metadata entry, if any, and
its raw quoted `ETag`), a `botocore` `ClientError` carrying an error code
(`"404"` for a missing object), or any other exception.  The `try/except`
blocks of `check_exists` and `upload_file` map the two error constructors to
`False`, which makes the embedded functions total with codomain `Bool` — the
transport exception never escapes the component. -/

/-- Outcome of `client.head_object` as consumed by `S3Manager.check_exists`. -/
inductive HeadResult where
  | ok (storedMd5 : Option String) (etag : String)
  | clientError (code : String)
  | otherError
deriving DecidableEq

/-- Python `etag.strip('"')`: remove every leading and trailing quote
character. -/
def strip_quote_chars (s : String) : String :=
  String.mk
    (((s.data.dropWhile (fun c => c = '"')).reverse.dropWhile
      (fun c => c = '"')).reverse)

/-- The ETag fallback of `S3Manager.check_exists`: compare a non-multipart
ETag (no dash) with the expected MD5; assume a multipart ETag is correct. -/
def etag_fallback (etag fp : String) : Bool :=
  if !((strip_quote_chars etag).data.contains '-') then
    strip_quote_chars etag == fp
  else true

/-- `S3Manager.check_exists`: `True` on a bare existence check, metadata MD5
comparison when the `md5-checksum` entry is non-empty, the ETag fallback
otherwise; `ClientError` (including 404) and any other exception give
`False`. -/
def check_exists (head : HeadResult) (expected_md5 : Option String) : Bool :=
  match head with
  | HeadResult.ok storedMd5 etag =>
    match expected_md5 with
    | none => true
    | some fp =>
      match storedMd5 with
      | some s => if s ≠ "" then s == fp else etag_fallback etag fp
      | none => etag_fallback etag fp
  | HeadResult.clientError _ => false
  | HeadResult.otherError => false

/-- The claim's existence predicate, modelled from the claim's words: an
object is present and either its fingerprint metadata matches, or that
metadata is absent and the integrity tag is a matching non-multipart tag. -/
def exists_claim_rhs (head : HeadResult) (fp : String) : Bool :=
  match head with
  | HeadResult.ok storedMd5 etag =>
    (storedMd5 == some fp) ||
    ((storedMd5 == none) &&
      !((strip_quote_chars etag).data.contains '-') &&
      (strip_quote_chars etag == fp))
  | HeadResult.clientError _ => false
  | HeadResult.otherError => false

/-- C4 counterexample: an object present with no fingerprint metadata and a
multipart ETag (it contains a dash) makes `check_exists` return `True` for
any expected fingerprint, while the claim's if-and-only-if condition is
false there. -/
theorem c4_counterexample :
    check_exists (HeadResult.ok none "\"abc-2\"") (some "zzz") = true ∧
    exists_claim_rhs (HeadResult.ok none "\"abc-2\"") "zzz" = false := by
  constructor
  · rfl
  · rfl

/-- C4 amended: `check_exists(key, fp)` returns true iff an object is present
and either its fingerprint metadata is non-empty and equals `fp`, or the
fingerprint metadata is absent (or empty) and the transport integrity tag
either is a non-multipart tag equal to `fp`, or is a multipart tag (in which
case existence is assumed valid). -/
theorem etag_fallback_eq_true_iff (etag fp : String) :
    etag_fallback etag fp = true ↔
      ((strip_quote_chars etag).data.contains '-' = false ∧
        strip_quote_chars etag = fp) ∨
      (strip_quote_chars etag).data.contains '-' = true := by
  unfold etag_fallback
  cases hdash : (strip_quote_chars etag).data.contains '-' with
  | true => simp
  | false => simp [beq_iff_eq]

theorem c4_exists_check (head : HeadResult) (fp : String) :
    check_exists head (some fp) = true ↔
      ∃ storedMd5 etag, head = HeadResult.ok storedMd5 etag ∧
        ((∃ s, storedMd5 = some s ∧ s ≠ "" ∧ s = fp) ∨
         ((∀ s, storedMd5 = some s → s = "") ∧
           ((strip_quote_chars etag).data.contains '-' = false ∧
              strip_quote_chars etag = fp ∨
            (strip_quote_chars etag).data.contains '-' = true))) := by
  cases head with
  | clientError code => simp [check_exists]
  | otherError => simp [check_exists]
  | ok storedMd5 etag =>
    cases storedMd5 with
    | none =>
      simp only [check_exists]
      rw [etag_fallback_eq_true_iff]
      constructor
      · intro h
        exact ⟨none, etag, rfl, Or.inr ⟨fun s hs => Option.noConfusion hs, h⟩⟩
      · rintro ⟨st, et, hok, hcase⟩
        injection hok with h1 h2
        subst h1
        subst h2
        rcases hcase with ⟨s, hsome, _, _⟩ | ⟨_, hrest⟩
        · exact Option.noConfusion hsome
        · exact hrest
    | some s =>
      by_cases hs : s = ""
      · subst hs
        simp only [check_exists]
        rw [if_neg (by simp), etag_fallback_eq_true_iff]
        constructor
        · intro h
          exact ⟨some "", etag, rfl,
            Or.inr ⟨fun t ht => (Option.some.inj ht).symm, h⟩⟩
        · rintro ⟨st, et, hok, hcase⟩
          injection hok with h1 h2
          subst h1
          subst h2
          rcases hcase with ⟨t, hsome, htne, _⟩ | ⟨_, hrest⟩
          · exact absurd (Option.some.inj hsome).symm htne
          · exact hrest
      · simp only [check_exists]
        rw [if_pos hs]
        constructor
        · intro h
          exact ⟨some s, etag, rfl, Or.inl ⟨s, rfl, hs, beq_iff_eq.mp h⟩⟩
        · rintro ⟨st, et, hok, hcase⟩
          injection hok with h1 h2
          subst h1
          subst h2
          rcases hcase with ⟨t, hsome, _, htfp⟩ | ⟨hall, _⟩
          · rw [beq_iff_eq, Option.some.inj hsome]
            exact htfp
          · exact absurd (hall s rfl) hs

theorem c4_exists_check_witness :
    check_exists (HeadResult.ok (some "aaa") "\"aaa\"") (some "aaa") = true :=
  (c4_exists_check (HeadResult.ok (some "aaa") "\"aaa\"") "aaa").mpr
    ⟨some "aaa", "\"aaa\"", rfl, Or.inl ⟨"aaa", rfl, by decide, rfl⟩⟩

/-- Inputs of one `S3Manager.upload_file` call: whether the local file exists,
the outcome of the local MD5 computation, the file size in bytes, whether
`put_object` completed without raising, the HEAD outcome seen by the
post-upload `check_exists` verification, and whether the multipart transfer
(`create/upload_part/complete`) completed without raising. -/
structure UploadInput where
  fileExists : Bool
  localMd5 : Option String
  fileSize : Nat
  putOk : Bool
  verifyHead : HeadResult
  multipartOk : Bool

/-- `S3Manager._upload_large_file`: the multipart transfer's transport result
is returned directly (abort-and-fail on exception), with no read-back of the
stored object. -/
def upload_large_file (inp : UploadInput) : Bool :=
  inp.multipartOk

/-- `S3Manager.upload_file`: missing file or failed MD5 give `False`; files
over 100 MiB go through `_upload_large_file`; smaller files are `put` and
then verified by `check_exists(key, md5)`; an exception anywhere gives
`False`. -/
def upload_file (inp : UploadInput) : Bool :=
  if !inp.fileExists then false
  else
    match inp.localMd5 with
    | none => false
    | some h =>
      if inp.fileSize > 100 * 1024 * 1024 then upload_large_file inp
      else if inp.putOk then check_exists inp.verifyHead (some h) else false

/-- C5 counterexample: on the multipart path (file over 100 MiB) the transport
reports success and `upload_file` returns `True` even though reading back the
stored object's metadata against the expected fingerprint fails — the
multi-part path performs no post-upload verification. -/
theorem c5_counterexample :
    upload_file
      ⟨true, some "aaa", 104857601, true,
        HeadResult.ok (some "bbb") "\"x\"", true⟩ = true ∧
    check_exists (HeadResult.ok (some "bbb") "\"x\"") (some "aaa") = false := by
  constructor
  · rfl
  · rfl

/-- C5 amended: only the single-shot path (size at or below 100 MiB)
re-verifies after transfer — its result is exactly the read-back comparison
`check_exists(key, fp)`, so a mismatch is failure even though `put_object`
succeeded; the multi-part path returns the transport result with no
re-verification. -/
theorem c5_post_upload_verification (inp : UploadInput) (h : String)
    (hmd5 : inp.localMd5 = some h) (hex : inp.fileExists = true) :
    (inp.fileSize ≤ 100 * 1024 * 1024 → inp.putOk = true →
      upload_file inp = check_exists inp.verifyHead (some h)) ∧
    (inp.fileSize ≤ 100 * 1024 * 1024 → inp.putOk = true →
      check_exists inp.verifyHead (some h) = false → upload_file inp = false) ∧
    (inp.fileSize > 100 * 1024 * 1024 → upload_file inp = inp.multipartOk) := by
  have hsmall : inp.fileSize ≤ 100 * 1024 * 1024 → inp.putOk = true →
      upload_file inp = check_exists inp.verifyHead (some h) := by
    intro hsize hput
    unfold upload_file
    rw [hex, hmd5]
    simp only [Bool.not_true, Bool.false_eq_true, if_false]
    rw [if_neg (by omega), if_pos hput]
  refine ⟨hsmall, ?_, ?_⟩
  · intro hsize hput hver
    rw [hsmall hsize hput, hver]
  · intro hsize
    unfold upload_file
    rw [hex, hmd5]
    simp only [Bool.not_true, Bool.false_eq_true, if_false]
    rw [if_pos hsize]
    rfl

theorem c5_post_upload_verification_witness :
    upload_file
      ⟨true, some "h1", 10, true, HeadResult.ok (some "h2") "\"e\"", false⟩ = false :=
  (c5_post_upload_verification
      ⟨true, some "h1", 10, true, HeadResult.ok (some "h2") "\"e\"", false⟩
      "h1" rfl rfl).2.1 (by decide) rfl rfl

/-- C7: transport errors never escape `S3Manager`: a `ClientError` of any code
(404 included) and any other exception make `check_exists` return the plain
value `False`, and a failed transport operation (single-shot put or multipart
transfer) makes `upload_file` return `False`; both embedded functions are
total with codomain `Bool`, the error outcomes being explicit constructors of
their input. -/
theorem c7_error_boundary (code fp : String) (e : Option String)
    (inp : UploadInput) (h : String) :
    check_exists (HeadResult.clientError code) (some fp) = false ∧
    check_exists HeadResult.otherError (some fp) = false ∧
    check_exists (HeadResult.clientError "404") e = false ∧
    (inp.localMd5 = some h → inp.fileExists = true →
      inp.fileSize ≤ 100 * 1024 * 1024 → inp.putOk = false →
      upload_file inp = false) ∧
    (inp.fileSize > 100 * 1024 * 1024 → inp.multipartOk = false →
      upload_file inp = false) := by
  refine ⟨rfl, rfl, rfl, ?_, ?_⟩
  · intro hmd5 hex hsize hput
    unfold upload_file
    rw [hex, hmd5]
    simp only [Bool.not_true, Bool.false_eq_true, if_false]
    rw [if_neg (by omega), hput]
    simp
  · intro hsize hmp
    unfold upload_file
    cases hfe : inp.fileExists with
    | false => simp
    | true =>
      cases hmd : inp.localMd5 with
      | none => simp
      | some h2 =>
        simp only [Bool.not_true, Bool.false_eq_true, if_false]
        rw [if_pos hsize]
        unfold upload_large_file
        exact hmp

theorem c7_error_boundary_witness :
    check_exists (HeadResult.clientError "404") (some "f") = false ∧
    upload_file ⟨true, some "f", 10, false, HeadResult.otherError, false⟩ = false ∧
    upload_file ⟨true, some "f", 104857601, true, HeadResult.otherError, false⟩ = false :=
  ⟨(c7_error_boundary "404" "f" (some "f")
      ⟨true, some "f", 10, false, HeadResult.otherError, false⟩ "f").1,
   (c7_error_boundary "404" "f" (some "f")
      ⟨true, some "f", 10, false, HeadResult.otherError, false⟩ "f").2.2.2.1
      rfl rfl (by decide) rfl,
   (c7_error_boundary "404" "f" (some "f")
      ⟨true, some "f", 104857601, true, HeadResult.otherError, false⟩ "f").2.2.2.2
      (by decide) rfl⟩

/-- Python `s.rstrip('/')`: remove the whole run of trailing slash
characters. -/
def rstrip_slashes (s : String) : String :=
  String.mk ((s.data.reverse.dropWhile (fun c => c = '/')).reverse)

/-- The length of the removed run of trailing slashes. -/
def trailing_slash_count (s : String) : Nat :=
  (s.data.reverse.takeWhile (fun c => c = '/')).length

/-- `S3Manager._build_s3_key`: with a configured (non-empty) prefix the full
key is the rstripped prefix, a slash, and the relative key; otherwise the
relative key verbatim.  An unconfigured prefix is embedded as `""` (both
`None` and `""` are falsy in the Python condition). -/
def build_s3_key (pfx key : String) : String :=
  if pfx ≠ "" then rstrip_slashes pfx ++ "/" ++ key else key

theorem dropWhile_head_not_slash (l : List Char) :
    ((l.dropWhile (fun c => c = '/')).head? ≠ some '/') := by
  induction l with
  | nil => simp
  | cons c t ih =>
    by_cases hc : c = '/'
    · simpa [List.dropWhile_cons, hc] using ih
    · simp [List.dropWhile_cons, hc]

/-- C8: the full remote key equals the configured prefix with its whole run
of trailing slashes trimmed, then a slash, then the relative key, whenever
the prefix is non-empty; with no prefix the relative key is used verbatim.
The last two conjuncts characterise the trimming: the original prefix is the
trimmed prefix followed by the removed run of slashes, and the trimmed prefix
does not end in a slash. -/
theorem c8_key_composition (pfx key : String) :
    (pfx = "" → build_s3_key pfx key = key) ∧
    (pfx ≠ "" → build_s3_key pfx key = rstrip_slashes pfx ++ "/" ++ key) ∧
    pfx.data = (rstrip_slashes pfx).data ++
      List.replicate (trailing_slash_count pfx) '/' ∧
    (rstrip_slashes pfx).data.getLast? ≠ some '/' := by
  refine ⟨?_, ?_, ?_, ?_⟩
  · intro h
    unfold build_s3_key
    rw [if_neg (by simp [h])]
  · intro h
    unfold build_s3_key
    rw [if_pos h]
  · show pfx.data =
      (pfx.data.reverse.dropWhile (fun c => c = '/')).reverse ++
      List.replicate (pfx.data.reverse.takeWhile (fun c => c = '/')).length '/'
    have h1 := List.takeWhile_append_dropWhile
      (fun c => decide (c = '/')) pfx.data.reverse
    have h2 := congrArg List.reverse h1
    rw [List.reverse_append, List.reverse_reverse] at h2
    have h3 : (pfx.data.reverse.takeWhile (fun c => decide (c = '/'))).reverse =
        List.replicate
          (pfx.data.reverse.takeWhile (fun c => decide (c = '/'))).length '/' := by
      have h4 : pfx.data.reverse.takeWhile (fun c => decide (c = '/')) =
          List.replicate
            (pfx.data.reverse.takeWhile (fun c => decide (c = '/'))).length '/' := by
        apply List.eq_replicate_of_mem
        intro b hb
        simpa using List.mem_takeWhile_imp hb
      rw [h4, List.reverse_replicate]
      simp
    rw [← h3]
    exact h2.symm
  · unfold rstrip_slashes
    rw [List.getLast?_reverse]
    exact dropWhile_head_not_slash _

theorem c8_key_composition_witness :
    build_s3_key "pre//" "x" = "pre/x" ∧ build_s3_key "" "y" = "y" :=
  ⟨((c8_key_composition "pre//" "x").2.1 (by decide)).trans (by decide),
    (c8_key_composition "" "y").1 rfl⟩

/-! ## Metadata value encoding
(`S3Manager._encode_metadata_value` / `S3Manager._decode_metadata_value`)

Python strings are embedded as lists of Unicode code points (`List Nat`),
byte strings as lists of byte values.  `base64.b64encode`/`b64decode` and
`str.encode("utf-8")`/`bytes.decode("utf-8")` are modelled below;
`b64_decode_groups` accepts exactly the well-padded inputs (Python's lenient
decoder additionally truncates at padding appearing mid-stream, an input shape
none of the theorems touches, which this model maps to failure). -/

/-- `value.encode("ascii")` succeeds iff every code point is below 128. -/
def ascii_only (v : List Nat) : Bool :=
  v.all (fun c => c < 128)

/-- The code points of the literal prefix `"base64:"`. -/
def base64_marker : List Nat := [98, 97, 115, 101, 54, 52, 58]

/-- The standard base64 alphabet, six-bit value to code point. -/
def b64_char (n : Nat) : Nat :=
  if n < 26 then 65 + n
  else if n < 52 then 97 + (n - 26)
  else if n < 62 then 48 + (n - 52)
  else if n = 62 then 43
  else 47

/-- Code point back to six-bit value, `none` outside the alphabet. -/
def b64_dec_char (c : Nat) : Option Nat :=
  if 65 ≤ c ∧ c ≤ 90 then some (c - 65)
  else if 97 ≤ c ∧ c ≤ 122 then some (c - 97 + 26)
  else if 48 ≤ c ∧ c ≤ 57 then some (c - 48 + 52)
  else if c = 43 then some 62
  else if c = 47 then some 63
  else none

/-- `base64.b64encode`: bytes to code points, `=`-padded (61 is `=`). -/
def b64_encode : List Nat → List Nat
  | [] => []
  | [b1] => [b64_char (b1 / 4), b64_char (b1 % 4 * 16), 61, 61]
  | [b1, b2] => [b64_char (b1 / 4), b64_char (b1 % 4 * 16 + b2 / 16),
      b64_char (b2 % 16 * 4), 61]
  | b1 :: b2 :: b3 :: rest =>
      b64_char (b1 / 4) :: b64_char (b1 % 4 * 16 + b2 / 16) ::
      b64_char (b2 % 16 * 4 + b3 / 64) :: b64_char (b3 % 64) :: b64_encode rest

/-- Quad-wise base64 decoding with padding handling; anything not a sequence
of full quads with final `=`-padding fails. -/
def b64_decode_groups : List Nat → Option (List Nat)
  | [] => some []
  | c1 :: c2 :: c3 :: c4 :: rest =>
    if c3 = 61 ∧ c4 = 61 ∧ rest = [] then
      match b64_dec_char c1, b64_dec_char c2 with
      | some n1, some n2 => some [n1 * 4 + n2 / 16]
      | _, _ => none
    else if c4 = 61 ∧ rest = [] then
      match b64_dec_char c1, b64_dec_char c2, b64_dec_char c3 with
      | some n1, some n2, some n3 =>
        some [n1 * 4 + n2 / 16, n2 % 16 * 16 + n3 / 4]
      | _, _, _ => none
    else
      match b64_dec_char c1, b64_dec_char c2, b64_dec_char c3, b64_dec_char c4 with
      | some n1, some n2, some n3, some n4 =>
        (b64_decode_groups rest).map
          (fun bs => (n1 * 4 + n2 / 16) :: (n2 % 16 * 16 + n3 / 4) ::
            (n3 % 4 * 64 + n4) :: bs)
      | _, _, _, _ => none
  | _ => none

/-- Characters `binascii` keeps: the alphabet and the padding `=`. -/
def keep_b64 (c : Nat) : Bool :=
  (b64_dec_char c).isSome || c == 61

/-- `base64.b64decode` on a Python `str`: ASCII-encode the string, discard
non-alphabet characters, decode the remaining quads. -/
def b64_decode_py (cs : List Nat) : Option (List Nat) :=
  if cs.all (fun c => c < 128) then
    b64_decode_groups (cs.filter keep_b64)
  else none

/-- UTF-8 encoding of one Unicode scalar value. -/
def utf8_encode_char (n : Nat) : List Nat :=
  if n < 128 then [n]
  else if n < 2048 then [192 + n / 64, 128 + n % 64]
  else if n < 65536 then [224 + n / 4096, 128 + n / 64 % 64, 128 + n % 64]
  else [240 + n / 262144, 128 + n / 4096 % 64, 128 + n / 64 % 64, 128 + n % 64]

/-- `value.encode("utf-8")`. -/
def utf8_encode (v : List Nat) : List Nat :=
  v.flatMap utf8_encode_char

/-- Fetch one continuation byte. -/
def cont1 : List Nat → Option (Nat × List Nat)
  | b2 :: rest2 => some (b2, rest2)
  | [] => none

/-- Fetch two continuation bytes. -/
def cont2 : List Nat → Option (Nat × Nat × List Nat)
  | b2 :: b3 :: rest2 => some (b2, b3, rest2)
  | _ => none

/-- Fetch three continuation bytes. -/
def cont3 : List Nat → Option (Nat × Nat × Nat × List Nat)
  | b2 :: b3 :: b4 :: rest2 => some (b2, b3, b4, rest2)
  | _ => none

/-- Strict UTF-8 decoding, with a fuel argument carrying the termination
measure: each decoded character consumes one unit of fuel and at least one
byte, so fuel equal to the byte count (as supplied by `utf8_decode`) is never
exhausted and the function agrees with the unbounded decoder on every
input. -/
def utf8_decode_fuel : Nat → List Nat → Option (List Nat)
  | _, [] => some []
  | 0, _ :: _ => none
  | fuel + 1, b :: rest =>
    if b < 128 then (utf8_decode_fuel fuel rest).map (fun s => b :: s)
    else if b < 194 then none
    else if b < 224 then
      match cont1 rest with
      | some (b2, rest2) =>
        if 128 ≤ b2 ∧ b2 < 192 then
          (utf8_decode_fuel fuel rest2).map
            (fun s => ((b - 192) * 64 + (b2 - 128)) :: s)
        else none
      | none => none
    else if b < 240 then
      match cont2 rest with
      | some (b2, b3, rest2) =>
        if 128 ≤ b2 ∧ b2 < 192 ∧ 128 ≤ b3 ∧ b3 < 192 then
          if (b - 224) * 4096 + (b2 - 128) * 64 + (b3 - 128) < 2048 ∨
             (55296 ≤ (b - 224) * 4096 + (b2 - 128) * 64 + (b3 - 128) ∧
              (b - 224) * 4096 + (b2 - 128) * 64 + (b3 - 128) ≤ 57343) then none
          else (utf8_decode_fuel fuel rest2).map
            (fun s => ((b - 224) * 4096 + (b2 - 128) * 64 + (b3 - 128)) :: s)
        else none
      | none => none
    else if b < 245 then
      match cont3 rest with
      | some (b2, b3, b4, rest2) =>
        if 128 ≤ b2 ∧ b2 < 192 ∧ 128 ≤ b3 ∧ b3 < 192 ∧ 128 ≤ b4 ∧ b4 < 192 then
          if (b - 240) * 262144 + (b2 - 128) * 4096 + (b3 - 128) * 64 +
               (b4 - 128) < 65536 ∨
             1114111 <
               (b - 240) * 262144 + (b2 - 128) * 4096 + (b3 - 128) * 64 +
               (b4 - 128) then
            none
          else (utf8_decode_fuel fuel rest2).map
            (fun s =>
              ((b - 240) * 262144 + (b2 - 128) * 4096 + (b3 - 128) * 64 +
                (b4 - 128)) :: s)
        else none
      | none => none
    else none

/-- `bytes.decode("utf-8")`. -/
def utf8_decode (l : List Nat) : Option (List Nat) :=
  utf8_decode_fuel l.length l

/-- `S3Manager._encode_metadata_value`: ASCII values pass through, others are
UTF-8 encoded, base64 encoded, and tagged with the `"base64:"` prefix. -/
def encode_metadata_value (v : List Nat) : List Nat :=
  if ascii_only v then v
  else base64_marker ++ b64_encode (utf8_encode v)

/-- `S3Manager._decode_metadata_value`: values tagged `"base64:"` are base64-
then UTF-8 decoded; on any decoding failure, and on untagged values, the input
is returned as-is. -/
def decode_metadata_value (v : List Nat) : List Nat :=
  if base64_marker.isPrefixOf v then
    match (b64_decode_py (v.drop 7)).bind utf8_decode with
    | some s => s
    | none => v
  else v

/-- The code points of an actual Python `str`: Unicode scalar values. -/
def valid_codepoints (v : List Nat) : Prop :=
  ∀ n ∈ v, n ≤ 1114111 ∧ ¬(55296 ≤ n ∧ n ≤ 57343)

instance (v : List Nat) : Decidable (valid_codepoints v) := by
  unfold valid_codepoints; infer_instance

theorem b64_dec_enc : ∀ x, x < 64 → b64_dec_char (b64_char x) = some x := by decide

theorem b64_char_lt_128 : ∀ x, x < 64 → b64_char x < 128 := by decide

theorem b64_keep_char : ∀ x, x < 64 → keep_b64 (b64_char x) = true := by decide

theorem b64_char_ne_61 : ∀ x, x < 64 → b64_char x ≠ 61 := by decide

theorem b64_decode_encode :
    ∀ bs : List Nat, (∀ b ∈ bs, b < 256) →
      b64_decode_groups (b64_encode bs) = some bs
  | [], _ => rfl
  | [b1], h => by
    have hb1 : b1 < 256 := h b1 (by simp)
    simp only [b64_encode, b64_decode_groups]
    rw [if_pos (by simp)]
    rw [b64_dec_enc _ (by omega), b64_dec_enc _ (by omega)]
    have hv : b1 / 4 * 4 + b1 % 4 * 16 / 16 = b1 := by omega
    simp only [hv]
  | [b1, b2], h => by
    have hb1 : b1 < 256 := h b1 (by simp)
    have hb2 : b2 < 256 := h b2 (by simp)
    simp only [b64_encode, b64_decode_groups]
    rw [if_neg (fun hc => b64_char_ne_61 _ (by omega) hc.1)]
    rw [if_pos (by simp)]
    rw [b64_dec_enc _ (by omega), b64_dec_enc _ (by omega), b64_dec_enc _ (by omega)]
    have hv1 : b1 / 4 * 4 + (b1 % 4 * 16 + b2 / 16) / 16 = b1 := by omega
    have hv2 : (b1 % 4 * 16 + b2 / 16) % 16 * 16 + b2 % 16 * 4 / 4 = b2 := by omega
    simp only [hv1, hv2]
  | b1 :: b2 :: b3 :: rest, h => by
    have hb1 : b1 < 256 := h b1 (by simp)
    have hb2 : b2 < 256 := h b2 (by simp)
    have hb3 : b3 < 256 := h b3 (by simp)
    have hrest : ∀ b ∈ rest, b < 256 := fun b hb => h b (by simp [hb])
    simp only [b64_encode, b64_decode_groups]
    rw [if_neg (fun hc => b64_char_ne_61 _ (by omega) hc.1)]
    rw [if_neg (fun hc => b64_char_ne_61 _ (by omega) hc.1)]
    rw [b64_dec_enc _ (by omega), b64_dec_enc _ (by omega),
      b64_dec_enc _ (by omega), b64_dec_enc _ (by omega)]
    rw [b64_decode_encode rest hrest]
    have hv1 : b1 / 4 * 4 + (b1 % 4 * 16 + b2 / 16) / 16 = b1 := by omega
    have hv2 : (b1 % 4 * 16 + b2 / 16) % 16 * 16 + (b2 % 16 * 4 + b3 / 64) / 4 = b2 := by
      omega
    have hv3 : (b2 % 16 * 4 + b3 / 64) % 4 * 64 + b3 % 64 = b3 := by omega
    simp only [hv1, hv2, hv3, Option.map_some']

theorem b64_encode_chars :
    ∀ bs : List Nat, (∀ b ∈ bs, b < 256) →
      ∀ c ∈ b64_encode bs, c < 128 ∧ keep_b64 c = true
  | [], _ => by simp [b64_encode]
  | [b1], h => by
    have hb1 : b1 < 256 := h b1 (by simp)
    intro c hc
    simp only [b64_encode, List.mem_cons, List.not_mem_nil, or_false] at hc
    rcases hc with rfl | rfl | rfl | rfl
    · exact ⟨b64_char_lt_128 _ (by omega), b64_keep_char _ (by omega)⟩
    · exact ⟨b64_char_lt_128 _ (by omega), b64_keep_char _ (by omega)⟩
    · exact ⟨by omega, by decide⟩
    · exact ⟨by omega, by decide⟩
  | [b1, b2], h => by
    have hb1 : b1 < 256 := h b1 (by simp)
    have hb2 : b2 < 256 := h b2 (by simp)
    intro c hc
    simp only [b64_encode, List.mem_cons, List.not_mem_nil, or_false] at hc
    rcases hc with rfl | rfl | rfl | rfl
    · exact ⟨b64_char_lt_128 _ (by omega), b64_keep_char _ (by omega)⟩
    · exact ⟨b64_char_lt_128 _ (by omega), b64_keep_char _ (by omega)⟩
    · exact ⟨b64_char_lt_128 _ (by omega), b64_keep_char _ (by omega)⟩
    · exact ⟨by omega, by decide⟩
  | b1 :: b2 :: b3 :: rest, h => by
    have hb1 : b1 < 256 := h b1 (by simp)
    have hb2 : b2 < 256 := h b2 (by simp)
    have hb3 : b3 < 256 := h b3 (by simp)
    have hrest : ∀ b ∈ rest, b < 256 := fun b hb => h b (by simp [hb])
    intro c hc
    simp only [b64_encode, List.mem_cons] at hc
    rcases hc with rfl | rfl | rfl | rfl | hc
    · exact ⟨b64_char_lt_128 _ (by omega), b64_keep_char _ (by omega)⟩
    · exact ⟨b64_char_lt_128 _ (by omega), b64_keep_char _ (by omega)⟩
    · exact ⟨b64_char_lt_128 _ (by omega), b64_keep_char _ (by omega)⟩
    · exact ⟨b64_char_lt_128 _ (by omega), b64_keep_char _ (by omega)⟩
    · exact b64_encode_chars rest hrest c hc

theorem b64_decode_py_encode (bs : List Nat) (h : ∀ b ∈ bs, b < 256) :
    b64_decode_py (b64_encode bs) = some bs := by
  unfold b64_decode_py
  have hall : (b64_encode bs).all (fun c => c < 128) = true := by
    rw [List.all_eq_true]
    intro c hc
    have := (b64_encode_chars bs h c hc).1
    simpa using this
  rw [if_pos hall]
  have hfil : (b64_encode bs).filter keep_b64 = b64_encode bs :=
    List.filter_eq_self.mpr (fun c hc => (b64_encode_chars bs h c hc).2)
  rw [hfil]
  exact b64_decode_encode bs h

theorem utf8_encode_char_bytes (n : Nat) (hn : n ≤ 1114111) :
    ∀ b ∈ utf8_encode_char n, b < 256 := by
  intro b hb
  unfold utf8_encode_char at hb
  by_cases h1 : n < 128
  · rw [if_pos h1] at hb
    simp only [List.mem_cons, List.not_mem_nil, or_false] at hb
    omega
  · rw [if_neg h1] at hb
    by_cases h2 : n < 2048
    · rw [if_pos h2] at hb
      simp only [List.mem_cons, List.not_mem_nil, or_false] at hb
      rcases hb with rfl | rfl <;> omega
    · rw [if_neg h2] at hb
      by_cases h3 : n < 65536
      · rw [if_pos h3] at hb
        simp only [List.mem_cons, List.not_mem_nil, or_false] at hb
        rcases hb with rfl | rfl | rfl <;> omega
      · rw [if_neg h3] at hb
        simp only [List.mem_cons, List.not_mem_nil, or_false] at hb
        rcases hb with rfl | rfl | rfl | rfl <;> omega

theorem utf8_decode_fuel_encode_char (fuel n : Nat) (t : List Nat)
    (hn : n ≤ 1114111) (hs : ¬(55296 ≤ n ∧ n ≤ 57343)) :
    utf8_decode_fuel (fuel + 1) (utf8_encode_char n ++ t) =
      (utf8_decode_fuel fuel t).map (fun s => n :: s) := by
  unfold utf8_encode_char
  by_cases h1 : n < 128
  · rw [if_pos h1]
    show utf8_decode_fuel (fuel + 1) (n :: t) = _
    rw [utf8_decode_fuel]
    rw [if_pos h1]
  · rw [if_neg h1]
    by_cases h2 : n < 2048
    · rw [if_pos h2]
      show utf8_decode_fuel (fuel + 1)
        ((192 + n / 64) :: (128 + n % 64) :: t) = _
      rw [utf8_decode_fuel]
      rw [if_neg (by omega), if_neg (by omega), if_pos (by omega)]
      show (if 128 ≤ 128 + n % 64 ∧ 128 + n % 64 < 192 then
          (utf8_decode_fuel fuel t).map
            (fun s => ((192 + n / 64 - 192) * 64 + (128 + n % 64 - 128)) :: s)
        else none) = _
      rw [if_pos (by omega)]
      have hv : (192 + n / 64 - 192) * 64 + (128 + n % 64 - 128) = n := by omega
      rw [hv]
    · rw [if_neg h2]
      by_cases h3 : n < 65536
      · rw [if_pos h3]
        show utf8_decode_fuel (fuel + 1)
          ((224 + n / 4096) :: (128 + n / 64 % 64) :: (128 + n % 64) :: t) = _
        rw [utf8_decode_fuel]
        rw [if_neg (by omega), if_neg (by omega), if_neg (by omega),
          if_pos (by omega)]
        show (if 128 ≤ 128 + n / 64 % 64 ∧ 128 + n / 64 % 64 < 192 ∧
              128 ≤ 128 + n % 64 ∧ 128 + n % 64 < 192 then
            if (224 + n / 4096 - 224) * 4096 + (128 + n / 64 % 64 - 128) * 64 +
                 (128 + n % 64 - 128) < 2048 ∨
               (55296 ≤ (224 + n / 4096 - 224) * 4096 +
                  (128 + n / 64 % 64 - 128) * 64 + (128 + n % 64 - 128) ∧
                (224 + n / 4096 - 224) * 4096 + (128 + n / 64 % 64 - 128) * 64 +
                  (128 + n % 64 - 128) ≤ 57343) then none
            else (utf8_decode_fuel fuel t).map
              (fun s => ((224 + n / 4096 - 224) * 4096 +
                (128 + n / 64 % 64 - 128) * 64 + (128 + n % 64 - 128)) :: s)
          else none) = _
        rw [if_pos (by omega), if_neg (by omega)]
        have hv : (224 + n / 4096 - 224) * 4096 + (128 + n / 64 % 64 - 128) * 64 +
            (128 + n % 64 - 128) = n := by omega
        rw [hv]
      · rw [if_neg h3]
        show utf8_decode_fuel (fuel + 1)
          ((240 + n / 262144) :: (128 + n / 4096 % 64) :: (128 + n / 64 % 64) ::
            (128 + n % 64) :: t) = _
        rw [utf8_decode_fuel]
        rw [if_neg (by omega), if_neg (by omega), if_neg (by omega),
          if_neg (by omega), if_pos (by omega)]
        show (if 128 ≤ 128 + n / 4096 % 64 ∧ 128 + n / 4096 % 64 < 192 ∧
              128 ≤ 128 + n / 64 % 64 ∧ 128 + n / 64 % 64 < 192 ∧
              128 ≤ 128 + n % 64 ∧ 128 + n % 64 < 192 then
            if (240 + n / 262144 - 240) * 262144 +
                 (128 + n / 4096 % 64 - 128) * 4096 +
                 (128 + n / 64 % 64 - 128) * 64 + (128 + n % 64 - 128) < 65536 ∨
               1114111 < (240 + n / 262144 - 240) * 262144 +
                 (128 + n / 4096 % 64 - 128) * 4096 +
                 (128 + n / 64 % 64 - 128) * 64 + (128 + n % 64 - 128) then none
            else (utf8_decode_fuel fuel t).map
              (fun s => ((240 + n / 262144 - 240) * 262144 +
                (128 + n / 4096 % 64 - 128) * 4096 +
                (128 + n / 64 % 64 - 128) * 64 + (128 + n % 64 - 128)) :: s)
          else none) = _
        rw [if_pos (by omega), if_neg (by omega)]
        have hv : (240 + n / 262144 - 240) * 262144 +
            (128 + n / 4096 % 64 - 128) * 4096 +
            (128 + n / 64 % 64 - 128) * 64 + (128 + n % 64 - 128) = n := by omega
        rw [hv]

theorem utf8_decode_fuel_encode (fuel : Nat) (v : List Nat)
    (hf : v.length ≤ fuel)
    (h : ∀ n ∈ v, n ≤ 1114111 ∧ ¬(55296 ≤ n ∧ n ≤ 57343)) :
    utf8_decode_fuel fuel (utf8_encode v) = some v := by
  induction v generalizing fuel with
  | nil =>
    show utf8_decode_fuel fuel [] = some []
    cases fuel <;> rfl
  | cons n vs ih =>
    have hn := h n (by simp)
    cases fuel with
    | zero => simp at hf
    | succ f =>
      show utf8_decode_fuel (f + 1)
        (utf8_encode_char n ++ utf8_encode vs) = some (n :: vs)
      rw [utf8_decode_fuel_encode_char f n _ hn.1 hn.2]
      rw [ih f (by simpa using Nat.lt_succ_iff.mp (Nat.lt_of_lt_of_le (by simp) hf))
        (fun m hm => h m (by simp [hm]))]
      rfl

theorem utf8_encode_length_ge (v : List Nat) :
    v.length ≤ (utf8_encode v).length := by
  induction v with
  | nil => simp [utf8_encode]
  | cons n vs ih =>
    show (n :: vs).length ≤ (utf8_encode_char n ++ utf8_encode vs).length
    rw [List.length_append, List.length_cons]
    have hpos : 1 ≤ (utf8_encode_char n).length := by
      unfold utf8_encode_char
      split_ifs <;> simp
    omega

theorem utf8_decode_encode (v : List Nat)
    (h : ∀ n ∈ v, n ≤ 1114111 ∧ ¬(55296 ≤ n ∧ n ≤ 57343)) :
    utf8_decode (utf8_encode v) = some v := by
  unfold utf8_decode
  exact utf8_decode_fuel_encode _ v (utf8_encode_length_ge v) h

theorem utf8_encode_bytes (v : List Nat)
    (h : ∀ n ∈ v, n ≤ 1114111 ∧ ¬(55296 ≤ n ∧ n ≤ 57343)) :
    ∀ b ∈ utf8_encode v, b < 256 := by
  intro b hb
  unfold utf8_encode at hb
  rcases List.mem_flatMap.mp hb with ⟨n, hn, hbn⟩
  exact utf8_encode_char_bytes n (h n hn).1 b hbn

/-- C9 counterexample: the ASCII string `"base64:YQ=="` is returned unchanged
by the encoder but is mistaken for an encoded value by the decoder, which
strips the prefix and base64/UTF-8 decodes the remainder to `"a"` — the
round trip does not return the original string. -/
theorem c9_counterexample :
    decode_metadata_value (encode_metadata_value
      [98, 97, 115, 101, 54, 52, 58, 89, 81, 61, 61]) = [97] ∧
    [97] ≠ [98, 97, 115, 101, 54, 52, 58, 89, 81, 61, 61] := by
  constructor
  · decide
  · decide

/-- C9 amended: for every string of Unicode scalar values that does not begin
with the literal prefix `"base64:"`, decoding the S3-safe encoding returns the
original string (ASCII strings pass through untouched on both sides;
non-ASCII strings survive the base64 and UTF-8 round trip). -/
theorem c9_metadata_round_trip (v : List Nat) (hv : valid_codepoints v)
    (hp : base64_marker.isPrefixOf v = false) :
    decode_metadata_value (encode_metadata_value v) = v := by
  unfold encode_metadata_value
  by_cases ha : ascii_only v = true
  · rw [if_pos ha]
    unfold decode_metadata_value
    rw [hp]
    simp
  · rw [if_neg ha]
    unfold decode_metadata_value
    have hpre : base64_marker.isPrefixOf
        (base64_marker ++ b64_encode (utf8_encode v)) = true := by
      rw [List.isPrefixOf_iff_prefix]
      exact List.prefix_append _ _
    rw [hpre]
    rw [if_pos rfl]
    rw [show (7 : Nat) = base64_marker.length from rfl, List.drop_left]
    rw [b64_decode_py_encode _ (utf8_encode_bytes v hv)]
    show (match utf8_decode (utf8_encode v) with
      | some s => s
      | none => base64_marker ++ b64_encode (utf8_encode v)) = v
    rw [utf8_decode_encode v hv]

theorem c9_metadata_round_trip_witness :
    decode_metadata_value (encode_metadata_value [233]) = [233] :=
  c9_metadata_round_trip [233] (by decide) (by decide)
